import Mathlib

/-!
Verification of the company-search query pipeline.

This file gives a shallow embedding, in Lean, of the pure core of the
backend query pipeline (filter model, filter merger, search translator,
canonicalizer quality gate, extractor post-processing, query rewriter,
result hydration and the HTTP result-size wiring), together with theorems
about the properties the specification states for those parts.

Modelling conventions:
  - Python `Optional[T]` becomes `Option T`; a pydantic model instance is
    always truthy in Python, so only `None` maps to `none`.
  - Rule values (`Union[str, int, float]`) are modelled as strings or
    integers; the claims under study never depend on float printing.
  - Machine floats (engine scores, thresholds, vector components) are
    modelled as rationals; all comparisons in the code are order
    comparisons that rationals reproduce.
  - External collaborators (the language model, the search engine, the
    relational store) are parameters of the functions that call them.
-/

/-! ## Filter DSL (backend/models/filters.py) -/

/-- Logical operators for combining filters (LogicType). -/
inductive Logic where
  | AND
  | OR
deriving DecidableEq, Repr

/-- Type of filter value (FilterType). -/
inductive FType where
  | TEXT
  | NUMERIC
deriving DecidableEq, Repr

/-- Comparison operators for filters (OperatorType). -/
inductive Op where
  | EQ
  | NEQ
  | GT
  | GTE
  | LT
  | LTE
deriving DecidableEq, Repr

/-- The `.value` attribute of an OperatorType member (a string enum). -/
def Op.valueStr : Op → String
  | .EQ => "EQ"
  | .NEQ => "NEQ"
  | .GT => "GT"
  | .GTE => "GTE"
  | .LT => "LT"
  | .LTE => "LTE"

/-- A rule value: `Union[str, int]` (floats are not needed by the claims). -/
inductive FValue where
  | fstr (s : String)
  | fint (n : Int)
deriving DecidableEq, Repr

/-- Python `str(value)` on a rule value. -/
def FValue.toStr : FValue → String
  | .fstr s => s
  | .fint n => toString n

/-! ### Python string primitives

`str.strip()`, `str.lower()` and `str.split()` are modelled directly on
the character list of the string, which matches their Python semantics on
the ASCII data handled by the pipeline. -/

/-- Python `str.strip()`: drop leading and trailing whitespace. -/
def pyStrip (s : String) : String :=
  ⟨((s.data.dropWhile Char.isWhitespace).reverse.dropWhile Char.isWhitespace).reverse⟩

/-- Python `str.lower()`. -/
def pyLower (s : String) : String :=
  ⟨s.data.map Char.toLower⟩

/-- Helper for `pySplit`: accumulate the current token (reversed) while
scanning; whitespace runs close tokens, empty pieces are dropped. -/
def pySplitAux : List Char → List Char → List String
  | [], acc => if acc.isEmpty then [] else [⟨acc.reverse⟩]
  | c :: rest, acc =>
    if c.isWhitespace then
      if acc.isEmpty then pySplitAux rest []
      else (⟨acc.reverse⟩ : String) :: pySplitAux rest []
    else pySplitAux rest (c :: acc)

/-- Python `str.split()` with no argument: split on whitespace runs,
dropping empty pieces. -/
def pySplit (s : String) : List String :=
  pySplitAux s.data []

/-- A single filter rule with operator and value (FilterRule). -/
structure FilterRule where
  op : Op
  value : FValue
deriving DecidableEq, Repr

/-- Filter for a specific segment with multiple rules (SegmentFilter). -/
structure SegmentFilter where
  segment : String
  type : FType
  logic : Logic
  rules : List FilterRule
deriving DecidableEq, Repr

/-- Complete filter specification for a query (QueryFilters). -/
structure QueryFilters where
  logic : Logic
  filters : List SegmentFilter
deriving DecidableEq, Repr

/-- Modelled from the spec: `ExcludedFilterValue: (segment, operator, value)`.
The class is imported from backend/models/filters.py by the merger, the
extractor and the query route, but its declaration is not among the given
source files.  The merging code reads `ev.segment`, compares `ev.op`
against `rule.op.value` (a string) and takes `str(ev.value)`; the value is
therefore modelled directly in its string form. -/
structure ExcludedFilterValue where
  segment : String
  op : String
  value : String
deriving DecidableEq, Repr

/-- Does an excluded-values entry match a rule of a given segment?  This is
the membership test `(rule.op.value, str(rule.value)) in excluded_for_segment`
from backend/logic/filter_merger.py, with the per-segment set
`excluded_for_segment` inlined. -/
def ruleExcluded (excluded_values : List ExcludedFilterValue)
    (segment : String) (rule : FilterRule) : Bool :=
  excluded_values.any (fun ev =>
    ev.segment = segment ∧ ev.op = rule.op.valueStr ∧ ev.value = rule.value.toStr)

/-! ## Filter merging (backend/logic/filter_merger.py) -/

/-- `_filter_excluded_values`: remove specific (segment, op, value) tuples
from filters; drop segments that become empty; return `none` when no
segment remains. -/
def filter_excluded_values (filters : Option QueryFilters)
    (excluded_values : List ExcludedFilterValue) : Option QueryFilters :=
  match filters with
  | none => none
  | some fs =>
    if excluded_values.isEmpty then some fs
    else
      let filtered_segments := fs.filters.filterMap (fun segment_filter =>
        let remaining_rules := segment_filter.rules.filter (fun rule =>
          !(ruleExcluded excluded_values segment_filter.segment rule))
        if remaining_rules.isEmpty then none
        else some { segment_filter with rules := remaining_rules })
      if filtered_segments.isEmpty then none
      else some { logic := fs.logic, filters := filtered_segments }

/-- `merge_filters`: merge user-provided filters with LLM-extracted filters,
with per-segment user override and excluded-value filtering. -/
def merge_filters (user_filters llm_filters : Option QueryFilters)
    (excluded_values : List ExcludedFilterValue) : QueryFilters :=
  let u := filter_excluded_values user_filters excluded_values
  let l := filter_excluded_values llm_filters excluded_values
  match u, l with
  | none, none => { logic := .AND, filters := [] }
  | some uf, none => uf
  | none, some lf => lf
  | some uf, some lf =>
    let user_segments := uf.filters.map SegmentFilter.segment
    let merged_filters :=
      uf.filters ++ lf.filters.filter (fun f => f.segment ∉ user_segments)
    { logic := uf.logic, filters := merged_filters }

/-! ## Search engine query AST and its boolean semantics

The translator in backend/es/filter_converter.py builds Elasticsearch
query-DSL dictionaries; the dictionaries it can produce are captured by
the `ESQuery` / `ESBody` abstract syntax below. -/

/-- Relational keys of an Elasticsearch range clause. -/
inductive RangeOp where
  | gt
  | gte
  | lt
  | lte
deriving DecidableEq, Repr

/-- The boolean (filter) part of an engine query. -/
inductive ESQuery where
  | term (field : String) (v : FValue)
  | range (field : String) (rop : RangeOp) (v : FValue)
  | mustNot (q : ESQuery)
  | must (qs : List ESQuery)
  | should (qs : List ESQuery)
  | matchAll

/-- A complete engine query body as produced by `filters_to_es_query`. -/
inductive ESBody where
  | knn (field : String) (query_vector : List ℚ) (k : Nat) (num_candidates : Nat)
  | scriptScore (query : ESQuery) (query_vector : List ℚ)
  | pureQuery (query : ESQuery)

/-- A document, as the engine filters see it: a multi-valued keyword field
per text segment and an optional numeric field per numeric segment. -/
structure Doc where
  textVals : String → List String
  numVals : String → Option Int

/-- Engine semantics of a term clause on a document: a term query on a
multi-valued keyword field matches when some stored value equals the query
value; on a numeric field it matches the stored number. -/
def termMatch (d : Doc) (field : String) : FValue → Bool
  | .fstr s => s ∈ d.textVals field
  | .fint n => d.numVals field = some n

/-- Engine semantics of a range clause; a missing field never matches. -/
def rangeMatch (d : Doc) (field : String) (rop : RangeOp) : FValue → Bool
  | .fstr _ => false
  | .fint n =>
    match d.numVals field with
    | none => false
    | some x =>
      match rop with
      | .gt => n < x
      | .gte => n ≤ x
      | .lt => x < n
      | .lte => x ≤ n

mutual

/-- Engine boolean semantics: does the document satisfy the query?
`must` requires every clause, `should` (always emitted with
minimum-should-match 1) requires at least one, `must_not` negates. -/
def esAccepts (d : Doc) : ESQuery → Bool
  | .term field v => termMatch d field v
  | .range field rop v => rangeMatch d field rop v
  | .mustNot q => !(esAccepts d q)
  | .must qs => esAcceptsAll d qs
  | .should qs => esAcceptsAny d qs
  | .matchAll => true

/-- All clauses of a must list hold. -/
def esAcceptsAll (d : Doc) : List ESQuery → Bool
  | [] => true
  | q :: qs => esAccepts d q && esAcceptsAll d qs

/-- At least one clause of a should list holds. -/
def esAcceptsAny (d : Doc) : List ESQuery → Bool
  | [] => false
  | q :: qs => esAccepts d q || esAcceptsAny d qs

end

/-! ## Search translator (backend/es/filter_converter.py) -/

/-- The clause built for one rule inside `convert_segment_filter`; `none`
when the if/elif chain appends nothing (text rules with an operator other
than EQ/NEQ). -/
def rule_to_clause (filter_type : FType) (segment : String)
    (rule : FilterRule) : Option ESQuery :=
  match filter_type, rule.op with
  | .TEXT, .EQ => some (.term segment rule.value)
  | .TEXT, .NEQ => some (.mustNot (.term segment rule.value))
  | .TEXT, _ => none
  | .NUMERIC, .EQ => some (.term segment rule.value)
  | .NUMERIC, .NEQ => some (.mustNot (.term segment rule.value))
  | .NUMERIC, .GT => some (.range segment .gt rule.value)
  | .NUMERIC, .GTE => some (.range segment .gte rule.value)
  | .NUMERIC, .LT => some (.range segment .lt rule.value)
  | .NUMERIC, .LTE => some (.range segment .lte rule.value)

/-- `convert_segment_filter`: convert a single SegmentFilter to engine
clauses; `none` models the empty dict returned when no rule produced a
clause. -/
def convert_segment_filter (segment_filter : SegmentFilter) : Option ESQuery :=
  let clauses := segment_filter.rules.filterMap
    (rule_to_clause segment_filter.type segment_filter.segment)
  match clauses with
  | [] => none
  | [c] => some c
  | cs => some (if segment_filter.logic = .AND then .must cs else .should cs)

/-- `filters_to_es_query`: convert QueryFilters plus an optional query
vector to a complete engine query body. -/
def filters_to_es_query (filters : QueryFilters)
    (query_vector : Option (List ℚ)) : ESBody :=
  let filter_clauses := filters.filters.filterMap convert_segment_filter
  match filter_clauses with
  | [] =>
    match query_vector with
    | some v => .knn "description_vector" v 10 100
    | none => .pureQuery .matchAll
  | fcs =>
    let filter_query :=
      match fcs with
      | [c] => c
      | _ => if filters.logic = .AND then .must fcs else .should fcs
    match query_vector with
    | some v => .scriptScore filter_query v
    | none => .pureQuery filter_query

/-! ## Search operation (backend/es/operations.py, backend/es/embeddings.py) -/

/-- `generate_embedding`: the sentence-transformer model is the `model`
parameter (with `dims` the configured output dimensionality); empty or
whitespace-only text maps to the zero vector without calling the model.
The text is `Option String` because callers pass an optional query. -/
def generate_embedding (model : String → List ℚ) (dims : Nat)
    (text : Option String) : List ℚ :=
  match text with
  | none => List.replicate dims 0
  | some t => if pyStrip t = "" then List.replicate dims 0 else model t

/-- The request sent by `search_companies_with_filters`: either a body
from the translator with an explicit result size, or the inline pure-kNN
body built when no filters are present. -/
inductive SearchRequest where
  | sized (body : ESBody) (size : Nat)
  | knnOnly (field : String) (query_vector : List ℚ) (k : Nat) (num_candidates : Nat)

/-- `search_companies_with_filters`, up to the engine call: the body it
sends.  The embedding of the query text is always computed; the translator
is used only when a QueryFilters with a non-empty filter list is given. -/
def search_companies_with_filters_body (model : String → List ℚ) (dims : Nat)
    (query_text : Option String) (filters : Option QueryFilters)
    (size : Nat) : SearchRequest :=
  let query_vector := generate_embedding model dims query_text
  match filters with
  | some f =>
    if f.filters.isEmpty then
      .knnOnly "description_vector" query_vector size (size * 10)
    else
      .sized (filters_to_es_query f (some query_vector)) size
  | none => .knnOnly "description_vector" query_vector size (size * 10)

/-! ## Canonicalizer quality gate (backend/es/fuzzy_matcher.py) -/

/-- One engine hit as consumed by the quality filter: the candidate name
and its raw score. -/
structure Hit where
  name : String
  score : ℚ
deriving DecidableEq, Repr

/-- Lowercased whitespace tokens of a string, deduplicated: the Python
set `set(s.lower().split())` (`split()` drops empty pieces). -/
def tokenSet (s : String) : List String :=
  (pySplit (pyLower s)).dedup

/-- `max_score = hits[0]["_score"] if hits else 0`. -/
def maxScore : List Hit → ℚ
  | [] => 0
  | h :: _ => h.score

/-- The composite quality score of one hit, from the loop body of
`batch_fuzzy_match_values`: 0.7 times the per-query normalized score plus
0.3 times the token overlap. -/
def quality_score (normalized_value : String) (max_score : ℚ) (hit : Hit) : ℚ :=
  let normalized_score := if max_score > 0 then hit.score / max_score else 0
  let query_tokens := tokenSet normalized_value
  let match_tokens := tokenSet hit.name
  let token_overlap :=
    if query_tokens ≠ [] then
      ((query_tokens.filter (fun t => t ∈ match_tokens)).length : ℚ) / query_tokens.length
    else 0
  normalized_score * 0.7 + token_overlap * 0.3

/-- `min_quality = 0.60 if value_length <= 3 else threshold * 0.8`. -/
def min_quality (value_length : Nat) (threshold : ℚ) : ℚ :=
  if value_length ≤ 3 then 0.60 else threshold * 0.8

/-- The acceptance test `quality_score >= min_quality` for one hit, with
`normalized_value = value.strip()` and `value_length = len(normalized_value)`. -/
def accept_hit (value : String) (threshold : ℚ) (max_score : ℚ) (hit : Hit) : Bool :=
  min_quality (pyStrip value).length threshold ≤
    quality_score (pyStrip value) max_score hit

/-- The `filtered_matches` list built for one input value from its engine
hits inside `batch_fuzzy_match_values`. -/
def filtered_matches (value : String) (threshold : ℚ) (hits : List Hit) : List String :=
  (hits.filter (accept_hit value threshold (maxScore hits))).map Hit.name

/-! ## Filter extractor post-processing (backend/llm/query_extractor.py)

The deterministic tail of `extract_query_filters` (lines 172 to 201): the
SaaS domain-expansion step, the excluded-values step and the final drop of
empty segments.  Its input is the QueryFilters after ES canonicalization,
since canonicalization itself is an external search-engine call; the
`seen_values` set at the expansion point is exactly the set of values of
the validated rules of the segment. -/

/-- The auto-expansion of Vertical/Horizontal SaaS inside the per-segment
validation loop.  It runs for text segments whose name is
`business_models`: when some validated rule has value Vertical SaaS or
Horizontal SaaS and no validated rule has value SaaS, a rule (EQ, SaaS)
is appended. -/
def expand_saas (segment_filter : SegmentFilter) : SegmentFilter :=
  if segment_filter.type = .TEXT ∧ segment_filter.segment = "business_models" then
    let has_vertical_or_horizontal := segment_filter.rules.any (fun rule =>
      rule.value = .fstr "Vertical SaaS" ∨ rule.value = .fstr "Horizontal SaaS")
    let seen_has_saas := segment_filter.rules.any (fun rule => rule.value.toStr = "SaaS")
    if has_vertical_or_horizontal ∧ ¬ seen_has_saas then
      { segment_filter with rules := segment_filter.rules ++ [⟨.EQ, .fstr "SaaS"⟩] }
    else segment_filter
  else segment_filter

/-- The excluded-values step of the extractor: drop rules whose
(op, str(value)) pair is excluded for the segment. -/
def extractor_exclude (excluded_values : List ExcludedFilterValue)
    (segment_filter : SegmentFilter) : SegmentFilter :=
  { segment_filter with rules := segment_filter.rules.filter (fun rule =>
      !(ruleExcluded excluded_values segment_filter.segment rule)) }

/-- The deterministic tail of `extract_query_filters`: SaaS expansion,
then excluded-values filtering (a no-op when the list is empty), then
`filters.filters = [f for f in filters.filters if f.rules]`. -/
def extract_query_filters_post (filters : QueryFilters)
    (excluded_values : List ExcludedFilterValue) : QueryFilters :=
  let expanded := filters.filters.map expand_saas
  let excluded :=
    if excluded_values.isEmpty then expanded
    else expanded.map (extractor_exclude excluded_values)
  { logic := filters.logic, filters := excluded.filter (fun f => !f.rules.isEmpty) }

/-! ## Query rewriter (backend/llm/query_rewriter.py) -/

/-- Schema for the query rewriting LLM response (backend/llm/schemas.py):
`rewritten_query` is a required string field. -/
structure QueryRewriteResponse where
  rewritten_query : String
deriving DecidableEq, Repr

/-- `rewrite_query_for_search`: the language-model call is the `llm`
parameter; `Except.error` models `llm_client.generate` raising (API
failure, JSON decode failure, schema validation failure).  The function
body contains no exception handler, so an error outcome propagates to the
caller. -/
def rewrite_query_for_search (llm : Except String QueryRewriteResponse)
    (query_text : String) : Except String String :=
  if pyStrip query_text = "" then .ok query_text
  else
    match llm with
    | .error e => .error e
    | .ok response =>
      if pyStrip response.rewritten_query = "" then .ok query_text
      else .ok (pyStrip response.rewritten_query)

/-! ## Result hydration (backend/logic/search.py, lines 193 to 206) -/

/-- Insertion-order key list of the Python dict comprehension
`{int(hit["_id"]): hit["_score"] for hit in search_results}`: first
occurrence keeps its position, later duplicates are dropped. -/
def dictKeys (seen : List Nat) : List Nat → List Nat
  | [] => []
  | x :: xs => if x ∈ seen then dictKeys seen xs else x :: dictKeys (x :: seen) xs

/-- `company_dict[cid]`: the dict built by iterating rows maps an id to
the last row bearing it. -/
def lookupLast (rows : List (Nat × α)) (i : Nat) : Option α :=
  (rows.reverse.find? (fun r => r.1 = i)).map Prod.snd

/-- The hydration step of `search_companies_with_extraction`: collect the
engine ids in rank order (dict key order), query the store for rows whose
id is among them, and list the found rows in engine order, skipping ids
with no row.  `hits` is the list of engine result ids; `rows` is the
relational store content as (id, record) pairs. -/
def hydrate (hits : List Nat) (rows : List (Nat × α)) : List (Nat × α) :=
  let company_ids := dictKeys [] hits
  let companies := rows.filter (fun r => r.1 ∈ company_ids)
  company_ids.filterMap (fun cid => (lookupLast companies cid).map (fun c => (cid, c)))

/-! ## HTTP layer (backend/routes/query.py) -/

/-- The request body of POST /api/submit-query: an optional query string,
optional user filters and optional excluded values; there is no field for
the result size. -/
structure QueryRequest where
  query : Option String
  filters : Option QueryFilters
  excluded_values : Option (List ExcludedFilterValue)

/-- The company list of `submit_query`, as far as its length is concerned:
the route invokes the orchestrator with the fixed size 20, the orchestrator
sends a request of that size to the engine and hydrates the returned ids.
`engine` maps a requested size to the id list the search engine returns. -/
def submit_query_companies (engine : Nat → List Nat)
    (rows : List (Nat × α)) (_request : QueryRequest) : List (Nat × α) :=
  hydrate (engine 20) rows

/-! ## Specification-side filter predicate (for the round-trip claim)

These definitions follow the words of the specification, not the code:
EQ maps to term, NEQ to must-not(term), GT/GTE/LT/LTE to range with
open/closed bounds preserved; rules combine under the intra-segment
logic (AND to must, OR to should with minimum-should-match 1), segment
clauses under the top-level logic; an empty filter list is a match-all. -/

/-- Spec-side semantics of one rule on a document, in engine semantics. -/
def specRuleAccepts (d : Doc) (segment : String) (rule : FilterRule) : Bool :=
  match rule.op with
  | .EQ => termMatch d segment rule.value
  | .NEQ => !(termMatch d segment rule.value)
  | .GT => rangeMatch d segment .gt rule.value
  | .GTE => rangeMatch d segment .gte rule.value
  | .LT => rangeMatch d segment .lt rule.value
  | .LTE => rangeMatch d segment .lte rule.value

/-- Spec-side semantics of a SegmentFilter: its rules combined under its
intra-segment logic. -/
def specSegmentAccepts (d : Doc) (segment_filter : SegmentFilter) : Bool :=
  match segment_filter.logic with
  | .AND => segment_filter.rules.all (specRuleAccepts d segment_filter.segment)
  | .OR => segment_filter.rules.any (specRuleAccepts d segment_filter.segment)

/-- Spec-side semantics of a QueryFilters: segment clauses combined under
the top-level logic; no filters means match-all. -/
def specFiltersAccept (d : Doc) (filters : QueryFilters) : Bool :=
  match filters.filters with
  | [] => true
  | _ =>
    match filters.logic with
    | .AND => filters.filters.all (specSegmentAccepts d)
    | .OR => filters.filters.any (specSegmentAccepts d)

/-! ## Well-formedness of filters

The pydantic validators of backend/models/filters.py guarantee, for every
QueryFilters that reaches the translator: every SegmentFilter has at least
one rule; text segments carry string values and only EQ/NEQ operators;
numeric segments carry numeric values. -/

/-- Is the value a string? -/
def FValue.isStr : FValue → Bool
  | .fstr _ => true
  | .fint _ => false

/-- Is the value numeric? -/
def FValue.isInt : FValue → Bool
  | .fstr _ => false
  | .fint _ => true

/-- The validated shape of one rule relative to its segment type
(`validate_type_and_operators`). -/
def WFRule (filter_type : FType) (rule : FilterRule) : Prop :=
  match filter_type with
  | .TEXT => (rule.op = .EQ ∨ rule.op = .NEQ) ∧ rule.value.isStr = true
  | .NUMERIC => rule.value.isInt = true

instance (t : FType) (r : FilterRule) : Decidable (WFRule t r) := by
  unfold WFRule; cases t <;> infer_instance

/-- The validated shape of a SegmentFilter: a non-empty rule list whose
rules fit the segment type (`validate_rules_not_empty`,
`validate_type_and_operators`). -/
def WFSegment (segment_filter : SegmentFilter) : Prop :=
  segment_filter.rules ≠ [] ∧ ∀ r ∈ segment_filter.rules, WFRule segment_filter.type r

instance (sf : SegmentFilter) : Decidable (WFSegment sf) := by
  unfold WFSegment; infer_instance

/-- The validated shape of a QueryFilters. -/
def WFFilters (filters : QueryFilters) : Prop :=
  ∀ sf ∈ filters.filters, WFSegment sf

instance (f : QueryFilters) : Decidable (WFFilters f) := by
  unfold WFFilters; infer_instance

/-! ## Concrete instances used by witnesses and counterexamples -/

/-- A default document, used only to instantiate lemmas whose length
conjunct does not depend on the document. -/
def emptyDoc : Doc := { textVals := fun _ => [], numVals := fun _ => none }

/-- A user QueryFilters with a single industries segment. -/
def userFiltersA : QueryFilters :=
  ⟨.AND, [⟨"industries", .TEXT, .AND, [⟨.EQ, .fstr "FinTech"⟩]⟩]⟩

/-- An extracted QueryFilters with a single industries segment whose rule
differs from the user one. -/
def llmFiltersA : QueryFilters :=
  ⟨.AND, [⟨"industries", .TEXT, .AND, [⟨.EQ, .fstr "AI"⟩]⟩]⟩

/-- An excluded-values list that removes exactly the user rule of
`userFiltersA`. -/
def excludedA : List ExcludedFilterValue := [⟨"industries", "EQ", "FinTech"⟩]

/-- Engine hits for the canonicalizer counterexample: a perfect match
followed by a close-scoring candidate that shares no token with the
query. -/
def hitsShort : List Hit := [⟨"ai", 10⟩, ⟨"machine learning", 9⟩]

/-- A QueryFilters with one location segment, for the translator and
search-operation instances. -/
def locationFilters : QueryFilters :=
  ⟨.AND, [⟨"location", .TEXT, .AND, [⟨.EQ, .fstr "San Francisco"⟩]⟩]⟩

/-- A two-segment QueryFilters exercising OR rules, NEQ and a numeric
range. -/
def mixedFilters : QueryFilters :=
  ⟨.AND, [⟨"industries", .TEXT, .OR, [⟨.EQ, .fstr "FinTech"⟩, ⟨.NEQ, .fstr "AI"⟩]⟩,
          ⟨"employee_count", .NUMERIC, .AND, [⟨.GT, .fint 10⟩]⟩]⟩

/-- Extractor output (post-canonicalization) whose business-models segment
contains Vertical SaaS. -/
def llmFiltersSaas : QueryFilters :=
  ⟨.AND, [⟨"business_models", .TEXT, .AND, [⟨.EQ, .fstr "Vertical SaaS"⟩]⟩]⟩

/-- An excluded-values list that dismisses the (business_models, EQ, SaaS)
triple. -/
def excludedSaas : List ExcludedFilterValue := [⟨"business_models", "EQ", "SaaS"⟩]

/-! ## Round-trip lemmas for the translator -/

theorem esAccepts_term (d : Doc) (f : String) (v : FValue) :
    esAccepts d (.term f v) = termMatch d f v := rfl

theorem esAccepts_range (d : Doc) (f : String) (rop : RangeOp) (v : FValue) :
    esAccepts d (.range f rop v) = rangeMatch d f rop v := rfl

theorem esAccepts_mustNot (d : Doc) (q : ESQuery) :
    esAccepts d (.mustNot q) = !(esAccepts d q) := rfl

theorem esAccepts_must (d : Doc) (qs : List ESQuery) :
    esAccepts d (.must qs) = esAcceptsAll d qs := rfl

theorem esAccepts_should (d : Doc) (qs : List ESQuery) :
    esAccepts d (.should qs) = esAcceptsAny d qs := rfl

theorem esAccepts_matchAll (d : Doc) : esAccepts d .matchAll = true := rfl

theorem esAcceptsAll_cons (d : Doc) (q : ESQuery) (qs : List ESQuery) :
    esAcceptsAll d (q :: qs) = (esAccepts d q && esAcceptsAll d qs) := rfl

theorem esAcceptsAny_cons (d : Doc) (q : ESQuery) (qs : List ESQuery) :
    esAcceptsAny d (q :: qs) = (esAccepts d q || esAcceptsAny d qs) := rfl

/-- Every well-formed rule produces exactly one clause, and that clause
has the spec-side semantics of the rule. -/
theorem rule_clause_sound (filter_type : FType) (segment : String)
    (rule : FilterRule) (h : WFRule filter_type rule) :
    ∃ c, rule_to_clause filter_type segment rule = some c ∧
      ∀ d, esAccepts d c = specRuleAccepts d segment rule := by
  cases filter_type with
  | TEXT =>
    rcases h with ⟨hop, _⟩
    rcases hop with h1 | h1
    · refine ⟨.term segment rule.value, ?_, fun d => ?_⟩
      · simp [rule_to_clause, h1]
      · simp [specRuleAccepts, h1, esAccepts_term]
    · refine ⟨.mustNot (.term segment rule.value), ?_, fun d => ?_⟩
      · simp [rule_to_clause, h1]
      · simp [specRuleAccepts, h1, esAccepts_mustNot, esAccepts_term]
  | NUMERIC =>
    cases hop : rule.op
    · refine ⟨.term segment rule.value, ?_, fun d => ?_⟩
      · simp [rule_to_clause, hop]
      · simp [specRuleAccepts, hop, esAccepts_term]
    · refine ⟨.mustNot (.term segment rule.value), ?_, fun d => ?_⟩
      · simp [rule_to_clause, hop]
      · simp [specRuleAccepts, hop, esAccepts_mustNot, esAccepts_term]
    · refine ⟨.range segment .gt rule.value, ?_, fun d => ?_⟩
      · simp [rule_to_clause, hop]
      · simp [specRuleAccepts, hop, esAccepts_range]
    · refine ⟨.range segment .gte rule.value, ?_, fun d => ?_⟩
      · simp [rule_to_clause, hop]
      · simp [specRuleAccepts, hop, esAccepts_range]
    · refine ⟨.range segment .lt rule.value, ?_, fun d => ?_⟩
      · simp [rule_to_clause, hop]
      · simp [specRuleAccepts, hop, esAccepts_range]
    · refine ⟨.range segment .lte rule.value, ?_, fun d => ?_⟩
      · simp [rule_to_clause, hop]
      · simp [specRuleAccepts, hop, esAccepts_range]

/-- The clause list of a well-formed rule list is as long as the rule
list, and its must/should combinations have the spec-side all/any
semantics. -/
theorem clauses_sound (filter_type : FType) (segment : String)
    (rules : List FilterRule) (h : ∀ r ∈ rules, WFRule filter_type r) (d : Doc) :
    (rules.filterMap (rule_to_clause filter_type segment)).length = rules.length ∧
    esAcceptsAll d (rules.filterMap (rule_to_clause filter_type segment)) =
      rules.all (specRuleAccepts d segment) ∧
    esAcceptsAny d (rules.filterMap (rule_to_clause filter_type segment)) =
      rules.any (specRuleAccepts d segment) := by
  induction rules with
  | nil => simp [esAcceptsAll, esAcceptsAny]
  | cons r rs ih =>
    obtain ⟨c, hc, hsem⟩ := rule_clause_sound filter_type segment r (h r (by simp))
    obtain ⟨ihlen, ihall, ihany⟩ := ih (fun r hr => h r (by simp [hr]))
    refine ⟨?_, ?_, ?_⟩ <;>
      simp [List.filterMap_cons, hc, esAcceptsAll_cons, esAcceptsAny_cons,
        ihlen, ihall, ihany, hsem d]

/-- Every well-formed SegmentFilter converts to exactly one engine clause,
and that clause has the spec-side segment semantics. -/
theorem segment_clause_sound (sf : SegmentFilter) (h : WFSegment sf) :
    ∃ c, convert_segment_filter sf = some c ∧
      ∀ d, esAccepts d c = specSegmentAccepts d sf := by
  obtain ⟨hne, hwf⟩ := h
  cases hr : sf.rules with
  | nil => exact absurd hr hne
  | cons r rs =>
    cases rs with
    | nil =>
      obtain ⟨c, hc, hsem⟩ :=
        rule_clause_sound sf.type sf.segment r (hwf r (by simp [hr]))
      refine ⟨c, ?_, fun d => ?_⟩
      · simp [convert_segment_filter, hr, List.filterMap_cons, hc]
      · cases hl : sf.logic <;> simp [specSegmentAccepts, hr, hl, hsem d]
    | cons r2 rs2 =>
      have hwf' : ∀ x ∈ sf.rules, WFRule sf.type x := hwf
      have hlen := (clauses_sound sf.type sf.segment sf.rules hwf' emptyDoc).1
      rcases hcs : sf.rules.filterMap (rule_to_clause sf.type sf.segment) with
        _ | ⟨c1, _ | ⟨c2, cs2⟩⟩
      · rw [hcs, hr] at hlen; simp at hlen
      · rw [hcs, hr] at hlen; simp at hlen
      refine ⟨if sf.logic = .AND then .must (c1 :: c2 :: cs2)
              else .should (c1 :: c2 :: cs2), ?_, fun d => ?_⟩
      · simp [convert_segment_filter, hcs]
      · obtain ⟨_, hall, hany⟩ := clauses_sound sf.type sf.segment sf.rules hwf' d
        rw [hcs] at hall hany
        cases hl : sf.logic <;>
          simp [specSegmentAccepts, hl, esAccepts_must, esAccepts_should, hall, hany]

/-- The clause list of a well-formed SegmentFilter list is as long as the
list, and its must/should combinations have the spec-side all/any
semantics. -/
theorem segment_clauses_sound (sfs : List SegmentFilter)
    (h : ∀ sf ∈ sfs, WFSegment sf) (d : Doc) :
    (sfs.filterMap convert_segment_filter).length = sfs.length ∧
    esAcceptsAll d (sfs.filterMap convert_segment_filter) =
      sfs.all (specSegmentAccepts d) ∧
    esAcceptsAny d (sfs.filterMap convert_segment_filter) =
      sfs.any (specSegmentAccepts d) := by
  induction sfs with
  | nil => simp [esAcceptsAll, esAcceptsAny]
  | cons sf sfs ih =>
    obtain ⟨c, hc, hsem⟩ := segment_clause_sound sf (h sf (by simp))
    obtain ⟨ihlen, ihall, ihany⟩ := ih (fun x hx => h x (by simp [hx]))
    refine ⟨?_, ?_, ?_⟩ <;>
      simp [List.filterMap_cons, hc, esAcceptsAll_cons, esAcceptsAny_cons,
        ihlen, ihall, ihany, hsem d]

/-- C5, main lemma: with no vector, the translator emits a pure boolean
query whose engine semantics coincide with the spec-side predicate. -/
theorem filters_to_es_query_sound (f : QueryFilters) (h : WFFilters f) :
    ∃ q, filters_to_es_query f none = .pureQuery q ∧
      ∀ d, esAccepts d q = specFiltersAccept d f := by
  cases hf : f.filters with
  | nil =>
    refine ⟨.matchAll, ?_, fun d => ?_⟩
    · simp [filters_to_es_query, hf]
    · simp [specFiltersAccept, hf, esAccepts_matchAll]
  | cons sf sfs =>
    cases sfs with
    | nil =>
      obtain ⟨c, hc, hsem⟩ := segment_clause_sound sf (h sf (by simp [hf]))
      refine ⟨c, ?_, fun d => ?_⟩
      · simp [filters_to_es_query, hf, List.filterMap_cons, hc]
      · cases hl : f.logic <;> simp [specFiltersAccept, hf, hl, hsem d]
    | cons sf2 sfs2 =>
      have hwf : ∀ x ∈ f.filters, WFSegment x := h
      have hlen := (segment_clauses_sound f.filters hwf emptyDoc).1
      rcases hcs : f.filters.filterMap convert_segment_filter with
        _ | ⟨c1, _ | ⟨c2, cs2⟩⟩
      · rw [hcs, hf] at hlen; simp at hlen
      · rw [hcs, hf] at hlen; simp at hlen
      refine ⟨if f.logic = .AND then .must (c1 :: c2 :: cs2)
              else .should (c1 :: c2 :: cs2), ?_, fun d => ?_⟩
      · simp [filters_to_es_query, hcs]
      · obtain ⟨_, hall, hany⟩ := segment_clauses_sound f.filters hwf d
        rw [hcs, hf] at hall hany
        cases hl : f.logic <;>
          simp [specFiltersAccept, hf, hl, esAccepts_must, esAccepts_should,
            hall, hany]

/-! ## Lemmas about the filter merger -/

/-- Rules surviving the per-segment exclusion filter match no excluded
entry; stated for the filterMap underlying `filter_excluded_values`. -/
theorem filtered_segments_sound (excl : List ExcludedFilterValue)
    (sfs : List SegmentFilter) :
    ∀ g ∈ sfs.filterMap (fun segment_filter =>
        let remaining_rules := segment_filter.rules.filter (fun rule =>
          !(ruleExcluded excl segment_filter.segment rule))
        if remaining_rules.isEmpty then none
        else some { segment_filter with rules := remaining_rules }),
      ∀ r ∈ g.rules, ruleExcluded excl g.segment r = false := by
  intro g hg r hr
  simp only [List.mem_filterMap] at hg
  obtain ⟨sf, _, hmk⟩ := hg
  by_cases hrem :
      (sf.rules.filter (fun rule => !(ruleExcluded excl sf.segment rule))).isEmpty
  · simp only [hrem, if_true] at hmk
    exact absurd hmk (by simp)
  · simp only [hrem, if_false] at hmk
    obtain rfl := Option.some.inj hmk
    simp only [List.mem_filter] at hr
    simpa using hr.2

/-- Whatever `_filter_excluded_values` returns carries no rule matching an
excluded entry of its segment. -/
theorem filter_excluded_sound {fo : Option QueryFilters}
    {excl : List ExcludedFilterValue} {out : QueryFilters}
    (h : filter_excluded_values fo excl = some out) :
    ∀ g ∈ out.filters, ∀ r ∈ g.rules, ruleExcluded excl g.segment r = false := by
  cases fo with
  | none => exact absurd h (by simp [filter_excluded_values])
  | some fs =>
    cases excl with
    | nil =>
      intro g _ r _
      simp [ruleExcluded]
    | cons e es =>
      rw [filter_excluded_values.eq_def] at h
      simp only [List.isEmpty_cons, Bool.false_eq_true, if_false] at h
      split at h
      · exact absurd h (by simp)
      · obtain rfl := Option.some.inj h
        exact filtered_segments_sound (e :: es) fs.filters

/-- Every SegmentFilter of a merged result comes from one of the two
exclusion-filtered inputs. -/
theorem merge_filters_mem {u l : Option QueryFilters}
    {excl : List ExcludedFilterValue} :
    ∀ g ∈ (merge_filters u l excl).filters,
      (∃ uf, filter_excluded_values u excl = some uf ∧ g ∈ uf.filters) ∨
      (∃ lf, filter_excluded_values l excl = some lf ∧ g ∈ lf.filters) := by
  intro g hg
  cases hu : filter_excluded_values u excl with
  | none =>
    cases hl : filter_excluded_values l excl with
    | none => simp only [merge_filters, hu, hl, List.not_mem_nil] at hg
    | some lf =>
      simp only [merge_filters, hu, hl] at hg
      exact Or.inr ⟨lf, rfl, hg⟩
  | some uf =>
    cases hl : filter_excluded_values l excl with
    | none =>
      simp only [merge_filters, hu, hl] at hg
      exact Or.inl ⟨uf, rfl, hg⟩
    | some lf =>
      simp only [merge_filters, hu, hl] at hg
      rcases List.mem_append.mp hg with h1 | h2
      · exact Or.inl ⟨uf, rfl, h1⟩
      · exact Or.inr ⟨lf, rfl, (List.mem_filter.mp h2).1⟩

/-- C1 (corrected).  If the user-supplied QueryFilters still contains a
SegmentFilter for segment S after excluded-values filtering, then every
segment-S SegmentFilter of the merged result comes from the filtered user
filters; in particular no SegmentFilter of the extracted (LLM) side for S
appears in the result. -/
theorem C1_user_override (u l : Option QueryFilters)
    (excl : List ExcludedFilterValue) (uf : QueryFilters) (S : String)
    (hu : filter_excluded_values u excl = some uf)
    (hS : ∃ f ∈ uf.filters, f.segment = S) :
    ∀ g ∈ (merge_filters u l excl).filters, g.segment = S → g ∈ uf.filters := by
  intro g hg hseg
  cases hl : filter_excluded_values l excl with
  | none =>
    simp only [merge_filters, hu, hl] at hg
    exact hg
  | some lf =>
    simp only [merge_filters, hu, hl] at hg
    rcases List.mem_append.mp hg with h1 | h2
    · exact h1
    · exfalso
      obtain ⟨f, hf, hfS⟩ := hS
      have hnot := (List.mem_filter.mp h2).2
      have hmem : g.segment ∈ uf.filters.map SegmentFilter.segment :=
        hseg ▸ hfS ▸ List.mem_map_of_mem SegmentFilter.segment hf
      simp [hmem] at hnot

/-- C1, witness: a user filter for industries that survives (empty
excluded list) forces the industries segment of the merge to be the user
one. -/
theorem C1_user_override_witness :
    (⟨"industries", .TEXT, .AND, [⟨.EQ, .fstr "FinTech"⟩]⟩ : SegmentFilter) ∈
      userFiltersA.filters :=
  C1_user_override (some userFiltersA) (some llmFiltersA) [] userFiltersA
    "industries" rfl (by decide)
    ⟨"industries", .TEXT, .AND, [⟨.EQ, .fstr "FinTech"⟩]⟩ (by decide) (by decide)

/-- C1, counterexample to the claim as stated: the user supplies an
industries SegmentFilter, but the excluded-values list removes its only
rule, so the merge falls back to the extracted industries filter, whose
rule (EQ, AI) comes from the LLM side. -/
theorem C1_counterexample :
    (∃ f ∈ userFiltersA.filters, f.segment = "industries") ∧
    merge_filters (some userFiltersA) (some llmFiltersA) excludedA = llmFiltersA ∧
    ∃ g ∈ (merge_filters (some userFiltersA) (some llmFiltersA) excludedA).filters,
      g.segment = "industries" ∧ g ∈ llmFiltersA.filters ∧ g ∉ userFiltersA.filters := by
  refine ⟨by decide, by decide, ?_⟩
  decide

/-- C3 (confirmed).  No rule of a merged QueryFilters has a
(segment, op, value) triple equal to an excluded-values entry. -/
theorem C3_no_excluded_triples (u l : Option QueryFilters)
    (excl : List ExcludedFilterValue) :
    ∀ g ∈ (merge_filters u l excl).filters, ∀ r ∈ g.rules, ∀ ev ∈ excl,
      ¬ (ev.segment = g.segment ∧ ev.op = r.op.valueStr ∧
         ev.value = r.value.toStr) := by
  intro g hg r hr ev hev hcontra
  have hfalse : ruleExcluded excl g.segment r = false := by
    rcases merge_filters_mem g hg with ⟨uf, hu, hguf⟩ | ⟨lf, hl, hglf⟩
    · exact filter_excluded_sound hu g hguf r hr
    · exact filter_excluded_sound hl g hglf r hr
  simp only [ruleExcluded, List.any_eq_false, decide_eq_true_eq] at hfalse
  exact hfalse ev hev hcontra

/-- C3, witness: at the concrete merge of the industries example, the
surviving rule (EQ, AI) does not equal the excluded entry
(industries, EQ, FinTech). -/
theorem C3_no_excluded_triples_witness :
    ¬ ((ExcludedFilterValue.mk "industries" "EQ" "FinTech").segment =
         (SegmentFilter.mk "industries" .TEXT .AND [⟨.EQ, .fstr "AI"⟩]).segment ∧
       (ExcludedFilterValue.mk "industries" "EQ" "FinTech").op =
         (FilterRule.mk .EQ (.fstr "AI")).op.valueStr ∧
       (ExcludedFilterValue.mk "industries" "EQ" "FinTech").value =
         (FilterRule.mk .EQ (.fstr "AI")).value.toStr) :=
  C3_no_excluded_triples (some userFiltersA) (some llmFiltersA) excludedA
    (SegmentFilter.mk "industries" .TEXT .AND [⟨.EQ, .fstr "AI"⟩]) (by decide)
    (FilterRule.mk .EQ (.fstr "AI")) (by decide)
    (ExcludedFilterValue.mk "industries" "EQ" "FinTech") (by decide)

/-- C5 (confirmed).  For every valid QueryFilters the translator, given no
vector, emits a pure boolean engine query accepting exactly the documents
accepted by the spec-side filter predicate (EQ as term, NEQ as
must-not(term), GT/GTE/LT/LTE as range with bounds preserved, AND as
must, OR as should with minimum-should-match 1). -/
theorem C5_translator_roundtrip (f : QueryFilters) (h : WFFilters f) :
    ∃ q, filters_to_es_query f none = .pureQuery q ∧
      ∀ d, esAccepts d q = specFiltersAccept d f :=
  filters_to_es_query_sound f h

/-- C5, witness: the round trip at a two-segment filter with OR rules, a
NEQ rule and a numeric GT rule. -/
theorem C5_translator_roundtrip_witness :
    ∃ q, filters_to_es_query mixedFilters none = .pureQuery q ∧
      ∀ d, esAccepts d q = specFiltersAccept d mixedFilters :=
  C5_translator_roundtrip mixedFilters (by decide)

/-- When at least one filter clause exists, a given vector wraps the same
boolean query that the no-vector call would return, in a script-score. -/
theorem filters_to_es_query_with_vector (f : QueryFilters) (v : List ℚ)
    (h : f.filters.filterMap convert_segment_filter ≠ []) :
    ∃ q, filters_to_es_query f (some v) = .scriptScore q v ∧
      filters_to_es_query f none = .pureQuery q := by
  rcases hcs : f.filters.filterMap convert_segment_filter with _ | ⟨c, cs⟩
  · exact absurd hcs h
  cases cs with
  | nil =>
    exact ⟨c, by simp [filters_to_es_query, hcs], by simp [filters_to_es_query, hcs]⟩
  | cons c2 cs2 =>
    refine ⟨if f.logic = .AND then .must (c :: c2 :: cs2)
            else .should (c :: c2 :: cs2), ?_, ?_⟩ <;>
      simp [filters_to_es_query, hcs]

/-- C6 (corrected).  For an empty (or whitespace) query with non-empty
valid user filters the request has no kNN clause, but the query-vector
computation is not skipped: the zero vector is embedded and the boolean
filter tree is wrapped in a script-score leg carrying that zero vector. -/
theorem C6_empty_query_zero_vector (model : String → List ℚ) (dims : Nat)
    (size : Nat) (query_text : Option String) (f : QueryFilters)
    (hq : match query_text with | none => True | some s => pyStrip s = "")
    (hf : f.filters ≠ []) (hwf : WFFilters f) :
    ∃ q, search_companies_with_filters_body model dims query_text (some f) size =
        .sized (.scriptScore q (List.replicate dims 0)) size ∧
      filters_to_es_query f none = .pureQuery q := by
  have hvec : generate_embedding model dims query_text = List.replicate dims 0 := by
    cases query_text with
    | none => rfl
    | some s => simp [generate_embedding, hq]
  have hclauses : f.filters.filterMap convert_segment_filter ≠ [] := by
    have hlen := (segment_clauses_sound f.filters hwf emptyDoc).1
    intro hc
    rw [hc] at hlen
    exact hf (List.length_eq_zero.mp hlen.symm)
  obtain ⟨q, hq1, hq2⟩ :=
    filters_to_es_query_with_vector f (List.replicate dims 0) hclauses
  refine ⟨q, ?_, hq2⟩
  have hne : f.filters.isEmpty = false := by
    cases hfil : f.filters with
    | nil => exact absurd hfil hf
    | cons a as => simp
  simp [search_companies_with_filters_body, hvec, hq1, hne]

/-- C6, witness: empty query text plus the location filter produces the
script-score wrapping of the location term query with the zero vector. -/
theorem C6_empty_query_zero_vector_witness :
    ∃ q, search_companies_with_filters_body (fun _ => [1]) 1 (some "")
        (some locationFilters) 10 =
        .sized (.scriptScore q (List.replicate 1 0)) 10 ∧
      filters_to_es_query locationFilters none = .pureQuery q :=
  C6_empty_query_zero_vector (fun _ => [1]) 1 10 (some "") locationFilters
    (by decide) (by decide) (by decide)

/-- C6, counterexample to the claim as stated: with an empty query and a
non-empty user filter the request sent is a script-score body with a zero
query vector, not a pure filter query. -/
theorem C6_counterexample :
    search_companies_with_filters_body (fun _ => [1]) 1 (some "")
      (some locationFilters) 10 =
      .sized (.scriptScore (.term "location" (.fstr "San Francisco")) [0]) 10 ∧
    ∀ q size, SearchRequest.sized
        (.scriptScore (.term "location" (.fstr "San Francisco")) [0]) 10 ≠
      SearchRequest.sized (.pureQuery q) size := by
  constructor
  · rfl
  · intro q size h
    injection h with h1 _
    exact ESBody.noConfusion h1

/-- C7 (corrected).  With no filters the search operation itself builds
the pure kNN request with k = requested size and num-candidates = 10 times
that, bypassing the translator; the translator, given a vector and no
filter clauses, returns a kNN clause with hard-coded k = 10 and
num-candidates = 100, independent of any requested size. -/
theorem C7_pure_knn_size (model : String → List ℚ) (dims : Nat)
    (query_text : Option String) (n : Nat) (f : QueryFilters) (v : List ℚ)
    (hf : f.filters = []) :
    search_companies_with_filters_body model dims query_text none n =
      .knnOnly "description_vector" (generate_embedding model dims query_text)
        n (n * 10) ∧
    search_companies_with_filters_body model dims query_text (some f) n =
      .knnOnly "description_vector" (generate_embedding model dims query_text)
        n (n * 10) ∧
    filters_to_es_query f (some v) = .knn "description_vector" v 10 100 := by
  refine ⟨rfl, ?_, ?_⟩
  · simp [search_companies_with_filters_body, hf]
  · simp [filters_to_es_query, hf]

/-- C7, witness: at size 5 the operation sends k = 5 and
num-candidates = 50, while the translator hard-codes 10 and 100. -/
theorem C7_pure_knn_size_witness :
    search_companies_with_filters_body (fun _ => [2]) 3 (some "ai") none 5 =
      .knnOnly "description_vector"
        (generate_embedding (fun _ => [2]) 3 (some "ai")) 5 (5 * 10) ∧
    search_companies_with_filters_body (fun _ => [2]) 3 (some "ai")
        (some ⟨.AND, []⟩) 5 =
      .knnOnly "description_vector"
        (generate_embedding (fun _ => [2]) 3 (some "ai")) 5 (5 * 10) ∧
    filters_to_es_query ⟨.AND, []⟩ (some [1]) = .knn "description_vector" [1] 10 100 :=
  C7_pure_knn_size (fun _ => [2]) 3 (some "ai") 5 ⟨.AND, []⟩ [1] rfl

/-- C7, counterexample to the claim as stated: for requested size 3 the
translator still returns k = 10 and num-candidates = 100, not 3 and 30. -/
theorem C7_counterexample :
    filters_to_es_query ⟨.AND, []⟩ (some [1]) = .knn "description_vector" [1] 10 100 ∧
    ESBody.knn "description_vector" [1] 10 100 ≠
      ESBody.knn "description_vector" [1] 3 (10 * 3) := by
  constructor
  · rfl
  · intro h
    injection h with _ _ h3 _
    exact absurd h3 (by decide)

/-- C8 (code bug).  The rewriter falls back to the original query on empty
model output and returns an empty query unchanged, but a raising
language-model call propagates out of `rewrite_query_for_search` (the
function has no exception handler), aborting the request instead of
degrading to the original text. -/
theorem C8_rewriter_failure_propagates :
    rewrite_query_for_search (.error "connection error") "AI companies" =
      .error "connection error" ∧
    rewrite_query_for_search (.ok ⟨"   "⟩) "AI companies" = .ok "AI companies" ∧
    rewrite_query_for_search (.ok ⟨"machine learning"⟩) "" = .ok "" := by
  exact ⟨rfl, rfl, rfl⟩

/-- C2, counterexample to the claim as stated: for the 2-character input
"ai" with threshold 0.8, the candidate "machine learning" scoring 9 under
a top score of 10 has composite quality 0.63; the code accepts it (floor
0.60 for short inputs) although 0.63 is below the claimed floor
max(0.60, 0.8 times 0.8) = 0.64. -/
theorem C2_counterexample :
    (pyStrip "ai").length ≤ 3 ∧
    accept_hit "ai" (4/5) (maxScore hitsShort) ⟨"machine learning", 9⟩ = true ∧
    "machine learning" ∈ filtered_matches "ai" (4/5) hitsShort ∧
    ¬ (max (0.60 : ℚ) (0.8 * (4/5)) ≤
        quality_score (pyStrip "ai") (maxScore hitsShort) ⟨"machine learning", 9⟩) := by
  have hps : pyStrip "ai" = "ai" := by decide
  have hms : maxScore hitsShort = 10 := rfl
  have h1 : tokenSet "ai" = ["ai"] := by decide
  have h2 : tokenSet "machine learning" = ["machine", "learning"] := by decide
  have hqs : quality_score (pyStrip "ai") (maxScore hitsShort)
      ⟨"machine learning", 9⟩ = 63/100 := by
    rw [hps, hms]
    unfold quality_score
    rw [h1, h2]
    norm_num
    decide
  have hqs1 : quality_score (pyStrip "ai") (maxScore hitsShort) ⟨"ai", 10⟩ = 1 := by
    rw [hps, hms]
    unfold quality_score
    rw [h1]
    norm_num
  have hacc2 : accept_hit "ai" (4/5) (maxScore hitsShort)
      ⟨"machine learning", 9⟩ = true := by
    unfold accept_hit
    rw [hqs, hps]
    simp only [min_quality, decide_eq_true_eq]
    rw [if_pos (by decide : "ai".length ≤ 3)]
    norm_num
  have hacc1 : accept_hit "ai" (4/5) (maxScore hitsShort) ⟨"ai", 10⟩ = true := by
    unfold accept_hit
    rw [hqs1, hps]
    simp only [min_quality, decide_eq_true_eq]
    rw [if_pos (by decide : "ai".length ≤ 3)]
    norm_num
  refine ⟨by decide, hacc2, ?_, ?_⟩
  · unfold filtered_matches hitsShort
    rw [show maxScore [⟨"ai", 10⟩, ⟨"machine learning", 9⟩] = maxScore hitsShort from rfl]
    simp [List.filter_cons, hacc1, hacc2]
  · rw [hqs]
    norm_num

/-- C2 (corrected).  A candidate name is returned for an input value iff
some hit carries it whose composite quality reaches 0.60 for inputs of at
most 3 characters (after stripping) and 0.8 times the threshold
otherwise. -/
theorem C2_quality_floor (value : String) (threshold : ℚ) (hits : List Hit)
    (name : String) :
    name ∈ filtered_matches value threshold hits ↔
      ∃ h ∈ hits, h.name = name ∧
        (if (pyStrip value).length ≤ 3 then (0.60 : ℚ) else threshold * 0.8) ≤
          quality_score (pyStrip value) (maxScore hits) h := by
  unfold filtered_matches accept_hit min_quality
  simp only [List.mem_map, List.mem_filter, decide_eq_true_eq]
  constructor
  · rintro ⟨h, ⟨hmem, hq⟩, hname⟩
    exact ⟨h, hmem, hname, hq⟩
  · rintro ⟨h, hmem, hname, hq⟩
    exact ⟨h, ⟨hmem, hq⟩, hname⟩

/-! ## Lemmas about the extractor tail -/

/-- SaaS expansion does not change the segment name. -/
theorem expand_saas_segment (sf : SegmentFilter) :
    (expand_saas sf).segment = sf.segment := by
  unfold expand_saas
  split
  · dsimp only
    split <;> rfl
  · rfl

/-- After SaaS expansion of a text business-models segment that holds a
Vertical or Horizontal SaaS rule, some rule carries the value SaaS. -/
theorem expand_saas_has_saas (sf : SegmentFilter) (hseg : sf.segment = "business_models")
    (htype : sf.type = .TEXT)
    (hvh : ∃ r ∈ (expand_saas sf).rules,
      r.value = .fstr "Vertical SaaS" ∨ r.value = .fstr "Horizontal SaaS") :
    ∃ r ∈ (expand_saas sf).rules, r.value.toStr = "SaaS" := by
  unfold expand_saas at hvh ⊢
  rw [if_pos ⟨htype, hseg⟩] at hvh ⊢
  by_cases hcond :
      (sf.rules.any (fun rule =>
        rule.value = .fstr "Vertical SaaS" ∨ rule.value = .fstr "Horizontal SaaS") = true ∧
       ¬ sf.rules.any (fun rule => rule.value.toStr = "SaaS") = true)
  · rw [if_pos hcond] at hvh ⊢
    exact ⟨⟨.EQ, .fstr "SaaS"⟩, by simp, rfl⟩
  · rw [if_neg hcond] at hvh ⊢
    have hany : sf.rules.any (fun rule =>
        rule.value = .fstr "Vertical SaaS" ∨ rule.value = .fstr "Horizontal SaaS") = true := by
      obtain ⟨r, hr, hrv⟩ := hvh
      simp only [List.any_eq_true, decide_eq_true_eq]
      exact ⟨r, hr, hrv⟩
    have hsaas : sf.rules.any (fun rule => rule.value.toStr = "SaaS") = true := by
      by_contra hno
      exact hcond ⟨hany, hno⟩
    simpa only [List.any_eq_true, decide_eq_true_eq] using hsaas

/-- C9 (corrected).  If the business-models segment of the extractor
output contains a Vertical SaaS or Horizontal SaaS rule and the
excluded-values list names no SaaS triple for business-models, then the
segment also contains a rule whose value is SaaS.  The hypothesis on
segment types reflects the pydantic validator: business_models is a text
segment. -/
theorem C9_saas_expansion (filters : QueryFilters)
    (excl : List ExcludedFilterValue)
    (htype : ∀ sf ∈ filters.filters, sf.segment = "business_models" → sf.type = .TEXT)
    (hex : ∀ ev ∈ excl, ¬ (ev.segment = "business_models" ∧ ev.value = "SaaS")) :
    ∀ g ∈ (extract_query_filters_post filters excl).filters,
      g.segment = "business_models" →
      (∃ r ∈ g.rules,
        r.value = .fstr "Vertical SaaS" ∨ r.value = .fstr "Horizontal SaaS") →
      ∃ r ∈ g.rules, r.value.toStr = "SaaS" := by
  intro g hg hseg hvh
  simp only [extract_query_filters_post, List.mem_filter] at hg
  obtain ⟨hg1, _⟩ := hg
  by_cases he : excl.isEmpty
  · rw [if_pos he] at hg1
    obtain ⟨sf, hsf, rfl⟩ := List.mem_map.mp hg1
    have hsfseg : sf.segment = "business_models" := expand_saas_segment sf ▸ hseg
    exact expand_saas_has_saas sf hsfseg (htype sf hsf hsfseg) hvh
  · rw [if_neg he] at hg1
    obtain ⟨g', hg', rfl⟩ := List.mem_map.mp hg1
    obtain ⟨sf, hsf, rfl⟩ := List.mem_map.mp hg'
    have hseg' : (expand_saas sf).segment = "business_models" := hseg
    have hsfseg : sf.segment = "business_models" := expand_saas_segment sf ▸ hseg'
    have hvh' : ∃ r ∈ (expand_saas sf).rules,
        r.value = .fstr "Vertical SaaS" ∨ r.value = .fstr "Horizontal SaaS" := by
      obtain ⟨r, hr, hrv⟩ := hvh
      exact ⟨r, (List.mem_filter.mp hr).1, hrv⟩
    obtain ⟨r, hr, hrs⟩ :=
      expand_saas_has_saas sf hsfseg (htype sf hsf hsfseg) hvh'
    refine ⟨r, List.mem_filter.mpr ⟨hr, ?_⟩, hrs⟩
    simp only [ruleExcluded, Bool.not_eq_true', List.any_eq_false,
      decide_eq_true_eq]
    rintro ev hev ⟨h1, _, h3⟩
    exact hex ev hev ⟨h1.trans hseg', h3.trans hrs⟩

/-- C9, witness: with no excluded values, the Vertical SaaS segment of
the example extractor output also carries a SaaS rule. -/
theorem C9_saas_expansion_witness :
    ∃ r ∈ (SegmentFilter.mk "business_models" .TEXT .AND
        [⟨.EQ, .fstr "Vertical SaaS"⟩, ⟨.EQ, .fstr "SaaS"⟩]).rules,
      r.value.toStr = "SaaS" :=
  C9_saas_expansion llmFiltersSaas [] (by decide) (by decide)
    (SegmentFilter.mk "business_models" .TEXT .AND
      [⟨.EQ, .fstr "Vertical SaaS"⟩, ⟨.EQ, .fstr "SaaS"⟩])
    (by decide) (by decide) (by decide)

/-- C9, counterexample to the claim as stated: dismissing
(business_models, EQ, SaaS) removes the expanded rule after expansion has
run, so the returned filters keep Vertical SaaS with no (EQ, SaaS) rule. -/
theorem C9_counterexample :
    ∃ g ∈ (extract_query_filters_post llmFiltersSaas excludedSaas).filters,
      g.segment = "business_models" ∧
      (∃ r ∈ g.rules, r.value = .fstr "Vertical SaaS") ∧
      ∀ r ∈ g.rules, ¬ (r.op = .EQ ∧ r.value = .fstr "SaaS") := by
  decide

/-! ## Lemmas about result hydration -/

/-- The dict key order is a sublist of the hit order. -/
theorem dictKeys_sublist (seen : List Nat) (l : List Nat) :
    (dictKeys seen l).Sublist l := by
  induction l generalizing seen with
  | nil => simp [dictKeys]
  | cons x xs ih =>
    rw [dictKeys]
    by_cases hx : x ∈ seen
    · rw [if_pos hx]
      exact (ih seen).cons x
    · rw [if_neg hx]
      exact (ih (x :: seen)).cons₂ x

/-- Membership in the dict key list. -/
theorem mem_dictKeys (seen : List Nat) (l : List Nat) (x : Nat) :
    x ∈ dictKeys seen l ↔ x ∈ l ∧ x ∉ seen := by
  induction l generalizing seen with
  | nil => simp [dictKeys]
  | cons y ys ih =>
    rw [dictKeys]
    by_cases hy : y ∈ seen
    · rw [if_pos hy, ih]
      constructor
      · rintro ⟨hys, hns⟩
        exact ⟨List.mem_cons_of_mem _ hys, hns⟩
      · rintro ⟨hxy, hns⟩
        rcases List.mem_cons.mp hxy with rfl | hys
        · exact absurd hy hns
        · exact ⟨hys, hns⟩
    · rw [if_neg hy]
      simp only [List.mem_cons, ih]
      by_cases hxy : x = y
      · subst hxy
        simp [hy]
      · simp only [hxy, false_or, List.mem_cons]

/-- Dict keys are distinct. -/
theorem dictKeys_nodup (seen : List Nat) (l : List Nat) :
    (dictKeys seen l).Nodup := by
  induction l generalizing seen with
  | nil => simp [dictKeys]
  | cons y ys ih =>
    rw [dictKeys]
    by_cases hy : y ∈ seen
    · rw [if_pos hy]
      exact ih seen
    · rw [if_neg hy]
      refine List.nodup_cons.mpr ⟨?_, ih (y :: seen)⟩
      intro hmem
      exact ((mem_dictKeys _ _ _).mp hmem).2 (by simp)

/-- The last-wins dict lookup succeeds exactly when some row bears the
id. -/
theorem lookupLast_isSome_iff (rows : List (Nat × α)) (i : Nat) :
    (lookupLast rows i).isSome ↔ ∃ r ∈ rows, r.1 = i := by
  unfold lookupLast
  simp [List.find?_isSome, List.mem_reverse]

/-- Projecting the ids out of the id-indexed filterMap yields a filter by
lookup success. -/
theorem filterMap_lookup_ids (ids : List Nat) (g : Nat → Option α) :
    (ids.filterMap (fun i => (g i).map (fun c => (i, c)))).map Prod.fst =
      ids.filter (fun i => (g i).isSome) := by
  induction ids with
  | nil => rfl
  | cons i is ih =>
    cases hg : g i <;> simp [List.filterMap_cons, hg, List.filter_cons, ih]

/-- The ids of the hydrated result are the deduplicated engine ids
restricted to those present in the store. -/
theorem hydrate_ids (hits : List Nat) (rows : List (Nat × α)) :
    (hydrate hits rows).map Prod.fst =
      (dictKeys [] hits).filter (fun i => rows.any (fun r => r.1 = i)) := by
  unfold hydrate
  rw [filterMap_lookup_ids]
  refine List.filter_congr ?_
  intro i hi
  rw [Bool.eq_iff_iff]
  rw [lookupLast_isSome_iff]
  simp only [List.any_eq_true, List.mem_filter, decide_eq_true_eq]
  constructor
  · rintro ⟨r, ⟨hr, _⟩, hri⟩
    exact ⟨r, hr, hri⟩
  · rintro ⟨r, hr, hri⟩
    exact ⟨r, ⟨hr, by simp [hri, hi]⟩, hri⟩

/-- C4 (confirmed).  The hydrated result lists ids in the engine rank
order (a sublist of the engine id sequence), contains each id at most
once, and contains exactly the engine ids present in the relational
store. -/
theorem C4_hydration_order (hits : List Nat) (rows : List (Nat × α)) :
    ((hydrate hits rows).map Prod.fst).Sublist hits ∧
    ((hydrate hits rows).map Prod.fst).Nodup ∧
    ∀ i, i ∈ (hydrate hits rows).map Prod.fst ↔
      i ∈ hits ∧ ∃ r ∈ rows, r.1 = i := by
  rw [hydrate_ids]
  refine ⟨?_, ?_, ?_⟩
  · exact (List.filter_sublist _).trans (dictKeys_sublist [] hits)
  · exact (dictKeys_nodup [] hits).filter _
  · intro i
    simp [List.mem_filter, mem_dictKeys, List.any_eq_true]

/-- The hydrated result is never longer than the engine response. -/
theorem hydrate_length_le (hits : List Nat) (rows : List (Nat × α)) :
    (hydrate hits rows).length ≤ hits.length := by
  unfold hydrate
  calc ((dictKeys [] hits).filterMap _).length
      ≤ (dictKeys [] hits).length := List.length_filterMap_le _ _
    _ ≤ hits.length := (dictKeys_sublist [] hits).length_le

/-- C10 (confirmed).  The submit-query route invokes the pipeline with
the fixed size 20 (the request body has no size field), so whenever the
engine honors the requested size, the response holds at most 20
companies. -/
theorem C10_submit_query_size (engine : Nat → List Nat)
    (rows : List (Nat × α)) (request : QueryRequest)
    (heng : ∀ n, (engine n).length ≤ n) :
    (submit_query_companies engine rows request).length ≤ 20 := by
  unfold submit_query_companies
  exact (hydrate_length_le (engine 20) rows).trans (heng 20)

/-- C10, witness: a one-hit engine stays within the bound. -/
theorem C10_submit_query_size_witness :
    (submit_query_companies (fun _ => []) [((1 : Nat), (0 : Nat))]
      ⟨none, none, none⟩).length ≤ 20 :=
  C10_submit_query_size (fun _ => []) [((1 : Nat), (0 : Nat))]
    ⟨none, none, none⟩ (fun n => by simp)
